import Mathlib

/-!
# A shallow embedding of the libbson document engine (src/bson/bson.c)

This file models, in Lean, the parts of `bson.c` that the verified claims
are about:

* the byte buffer backing a document, with little-endian 32/64-bit fields;
* the element encoder `bson_append_va` and the public appenders built on it
  (`bson_append_null`, `bson_append_utf8`, `bson_append_code`,
  `bson_append_code_with_scope`, `bson_append_int32`, `bson_append_timestamp`);
* the nested builder `bson_append_bson_begin` / `bson_append_bson_end`;
* construction (`bson_new`, `bson_new_from_data`, `bson_init_static`,
  `bson_sized_new`, `bson_grow_if_needed`);
* comparison (`bson_compare`, `bson_equal`);
* the validator (`bson_validate` with the `bson_validate_funcs` visitors).

Modelling conventions:

* Bytes are `Nat` values (< 256 in every reachable state); a buffer is a
  `List Nat` read through `byteAt`, where positions past the end of the
  list read as `0`.  This matches the C storage discipline of the runs the
  theorems are about: `bson_init`/`bson_new` zero the whole handle
  (including the inline buffer) with `memset`/`bson_malloc0`, and heap
  promotion uses `bson_malloc0`, so unwritten storage holds zero bytes.
* Buffer growth is modelled as capacity-only: `writeBytes` extends the
  buffer with zero bytes on demand.  The abort that
  `bson_grow_if_needed` performs when the doubled allocation reaches
  `INT_MAX` is modelled separately (`bson_grow_if_needed`,
  `bson_sized_new`) where a claim depends on it.
* Machine integers are `Nat`/`Int` with explicit `% 2^32` / `% 2^64`
  where C truncation matters.  The host is little-endian, so the
  `BSON_UINT32_TO_LE` family are identity functions.
* C strings (keys, javascript, utf8 values) are the lists of their bytes,
  without the terminating NUL; the NUL is an explicit `[0]` chunk exactly
  where `bson_append` receives one.
* `bson-iter.c`, `bson-utf8.c` and the public header (`bson_empty0`, the
  inline-buffer size) are not part of `src/`; the definitions that stand
  in for them carry a doc comment starting `Modelled from the spec:` and
  follow the specification's description.
-/

/-! ## Byte buffers and little-endian fields -/

/-- Read byte `i` of a buffer; positions past the end of the list read as
zero (zero-initialised storage, see the header comment). -/
def byteAt (buf : List Nat) (i : Nat) : Nat :=
  buf.getD i 0

/-- Extend a buffer with zero bytes up to length `n` (no effect if it is
already at least that long). -/
def padTo (buf : List Nat) (n : Nat) : List Nat :=
  buf ++ List.replicate (n - buf.length) 0

/-- Model of `memcpy(&buf[p], d, d.length)`: overwrite the bytes at positions
`[p, p + d.length)`, extending the buffer with zero bytes if needed. -/
def writeBytes (buf : List Nat) (p : Nat) (d : List Nat) : List Nat :=
  (padTo buf (p + d.length)).take p ++ d ++ (padTo buf (p + d.length)).drop (p + d.length)

/-- The four bytes of a 32-bit value in little-endian order
(`BSON_UINT32_TO_LE` is the identity on the little-endian host). -/
def le32 (n : Nat) : List Nat :=
  [n % 256, n / 256 % 256, n / 65536 % 256, n / 16777216 % 256]

/-- The eight bytes of a 64-bit value in little-endian order. -/
def le64 (n : Nat) : List Nat :=
  [n % 256, n / 256 % 256, n / 65536 % 256, n / 16777216 % 256,
   n / 4294967296 % 256, n / 1099511627776 % 256,
   n / 281474976710656 % 256, n / 72057594037927936 % 256]

/-- Decode the little-endian 32-bit field at position `p`. -/
def readLE32 (buf : List Nat) (p : Nat) : Nat :=
  byteAt buf p + 256 * byteAt buf (p + 1) + 65536 * byteAt buf (p + 2) +
    16777216 * byteAt buf (p + 3)

/-- Decode the little-endian 64-bit field at position `p`. -/
def readLE64 (buf : List Nat) (p : Nat) : Nat :=
  byteAt buf p + 256 * byteAt buf (p + 1) + 65536 * byteAt buf (p + 2) +
    16777216 * byteAt buf (p + 3) + 4294967296 * byteAt buf (p + 4) +
    1099511627776 * byteAt buf (p + 5) + 281474976710656 * byteAt buf (p + 6) +
    72057594037927936 * byteAt buf (p + 7)

/-! ## Document handles and the build chain

`bson_t` overlays several modes on one struct.  The claims concern the
top-level modes (owned or static) and the child mode; we model a build
state as the root handle plus the stack of currently open children
(`BSON_FLAG_CHILD` handles), innermost (leaf) first.  A child records its
`child.offset` (start of its length prefix within the root buffer) and its
logical `len`, exactly the fields `bson_append_va`,
`bson_append_bson_begin` and `bson_append_bson_end` use.  Appends are
performed on the innermost open handle, which is the usage pattern the
spec's builder describes (a chain of length zero means appending to the
root directly). -/

/-- A root (non-child) `bson_t`: its buffer bytes, its logical length
`b->len`, and whether `BSON_FLAG_NO_GROW` is set (static-read-only mode,
as produced by `bson_init_static`). -/
structure BRoot where
  data : List Nat
  len : Nat
  noGrow : Bool
deriving DecidableEq, Repr

/-- A child handle: `b->child.offset` and `b->len`. -/
structure BChild where
  offset : Nat
  len : Nat
deriving DecidableEq, Repr

/-- A build chain: the root plus the open children, innermost first. -/
structure BChain where
  root : BRoot
  kids : List BChild
deriving DecidableEq, Repr

/-- Offset of the innermost open handle's byte range in the root buffer
(`bson_get_data_fast` minus the buffer base). -/
def leafOffset (c : BChain) : Nat :=
  match c.kids with
  | [] => 0
  | k :: _ => k.offset

/-- The `b->len` of the innermost open handle. -/
def leafLen (c : BChain) : Nat :=
  match c.kids with
  | [] => c.root.len
  | k :: _ => k.len

/-- Model of `bson_get_data_fast(b)` followed by reading `b->len` bytes: the byte
range of a root handle's document. -/
def bsonBytes (b : BRoot) : List Nat :=
  (padTo b.data b.len).take b.len

/-- Model of `bson_append_va` (src/bson/bson.c:467).  The C function receives the
element as `n_params` length/data chunk pairs and copies them one after
another at `buf[bson->len - 1]`, bumping `bson->len` after each chunk; the
net effect on the buffer is writing the concatenation of the chunks at the
old terminator position.  It then writes `0` at the new last byte,
re-encodes the length prefix of `bson` itself (`bson_encode_length`), and,
if `bson` is a child, walks the parent chain adding the total growth to
each ancestor's `len` field (without re-encoding their prefixes).
If the handle is a root with `BSON_FLAG_NO_GROW`, it prints a message and
returns without doing anything. -/
def bson_append_va (c : BChain) (chunks : List (List Nat)) : BChain :=
  let data := chunks.flatten
  match c.kids with
  | [] =>
    if c.root.noGrow then c
    else
      let len := c.root.len + data.length
      let buf := writeBytes c.root.data (c.root.len - 1) data
      let buf := writeBytes buf (len - 1) [0]
      let buf := writeBytes buf 0 (le32 len)
      { root := { data := buf, len := len, noGrow := c.root.noGrow }, kids := [] }
  | leaf :: rest =>
      let len := leaf.len + data.length
      let buf := writeBytes c.root.data (leaf.offset + leaf.len - 1) data
      let buf := writeBytes buf (leaf.offset + len - 1) [0]
      let buf := writeBytes buf leaf.offset (le32 len)
      { root := { data := buf, len := c.root.len + data.length, noGrow := c.root.noGrow },
        kids := { offset := leaf.offset, len := len } ::
          rest.map (fun k => { offset := k.offset, len := k.len + data.length }) }

/-- The single zero byte used for key terminators (`gZero`). -/
def gZero : List Nat := [0]

/-- Model of `bson_append_null` (bson.c:857): tag `0x0A`, key, NUL. -/
def bson_append_null (c : BChain) (key : List Nat) : BChain :=
  bson_append_va c [[10], key, gZero]

/-- Model of `bson_append_utf8` (bson.c:935): a NULL value delegates to
`bson_append_null`; otherwise tag `0x02`, key, NUL, int32 `length + 1`,
the value bytes, and a trailing NUL chunk.  A caller-supplied
non-negative `length` selects a prefix of the value; we take `value` to
be exactly the bytes the C function measures or receives. -/
def bson_append_utf8 (c : BChain) (key : List Nat) (value : Option (List Nat)) : BChain :=
  match value with
  | none => bson_append_null c key
  | some v => bson_append_va c [[2], key, gZero, le32 (v.length + 1), v, [0]]

/-- Model of `bson_append_code` (bson.c:610): tag `0x0D`, key, NUL, int32
`strlen(javascript) + 1`, then `length` bytes copied from the javascript
C string (its bytes plus its NUL terminator). -/
def bson_append_code (c : BChain) (key js : List Nat) : BChain :=
  bson_append_va c [[13], key, gZero, le32 (js.length + 1), js ++ [0]]

/-- Modelled from the spec: `bson_empty0` lives in the public header, which
is not under src/; the spec defines it as "`empty0` (length ≤ 5)" on a
possibly-NULL handle. -/
def bson_empty0 (b : Option BRoot) : Bool :=
  match b with
  | none => true
  | some s => s.len ≤ 5

/-- Model of `bson_append_code_with_scope` (bson.c:640): an empty or absent scope
delegates to `bson_append_code`; otherwise tag `0x0F`, key, NUL, int32
total length `4 + 4 + js_length + scope->len`, int32 `js_length`, the
javascript bytes with NUL, and the scope document's bytes. -/
def bson_append_code_with_scope (c : BChain) (key js : List Nat)
    (scope : Option BRoot) : BChain :=
  if bson_empty0 scope then bson_append_code c key js
  else
    match scope with
    | none => bson_append_code c key js
    | some s =>
      bson_append_va c [[15], key, gZero, le32 (4 + 4 + (js.length + 1) + s.len),
        le32 (js.length + 1), js ++ [0], bsonBytes s]

/-- Model of `bson_append_int32` (bson.c:763): tag `0x10`, key, NUL, the 4-byte
little-endian value (`BSON_UINT32_TO_LE` of the 32-bit value). -/
def bson_append_int32 (c : BChain) (key : List Nat) (value : Nat) : BChain :=
  bson_append_va c [[16], key, gZero, le32 (value % 4294967296)]

/-- Model of `bson_append_timestamp` (bson.c:1023): tag `0x11`, key, NUL, and the
8-byte little-endian encoding of
`((uint64)timestamp << 32) | (uint64)increment` (both arguments are
`uint32`). -/
def bson_append_timestamp (c : BChain) (key : List Nat)
    (timestamp increment : Nat) : BChain :=
  bson_append_va c
    [[17], key, gZero, le64 (((timestamp % 4294967296) <<< 32) ||| (increment % 4294967296))]

/-- Model of `bson_append_bson_begin` (bson.c:1126): append the element header
(tag, key, NUL) to `bson`, then initialise the child handle with
`len = 5` and `offset` = (the begun-on handle's offset) + its `len` - 1,
reserve 5 bytes of capacity, and finally walk from the begun-on handle up
to the root adding 5 to each `len` and re-encoding each length prefix in
place.  Note that the child's own five bytes (its length prefix `05 00 00
00` and terminator) are never written to the buffer. -/
def bson_append_bson_begin (c : BChain) (tag : Nat) (key : List Nat) : BChain :=
  let c1 := bson_append_va c [[tag], key, gZero]
  let off := leafOffset c1 + leafLen c1 - 1
  let kids1 := c1.kids.map (fun k : BChild => ({ offset := k.offset, len := k.len + 5 } : BChild))
  let rootLen1 := c1.root.len + 5
  let buf := (kids1.map (fun k : BChild => (k.offset, k.len)) ++ [(0, rootLen1)]).foldl
    (fun (b : List Nat) (ol : Nat × Nat) => writeBytes b ol.1 (le32 ol.2)) c1.root.data
  { root := { data := buf, len := rootLen1, noGrow := c1.root.noGrow },
    kids := { offset := off, len := 5 } :: kids1 }

/-- Model of `bson_append_document_begin` (bson.c:1190). -/
def bson_append_document_begin (c : BChain) (key : List Nat) : BChain :=
  bson_append_bson_begin c 3 key

/-- Model of `bson_append_array_begin` (bson.c:1200). -/
def bson_append_array_begin (c : BChain) (key : List Nat) : BChain :=
  bson_append_bson_begin c 4 key

/-- Model of `bson_append_bson_end` (bson.c:1172): starting from the child being
closed, walk to its parent, grandparent, …, root; at each level re-encode
the length prefix and write `0` at the level's last byte.  The child
itself is not re-encoded.  In the chain model the closed child is popped
from the stack. -/
def bson_append_bson_end (c : BChain) : BChain :=
  match c.kids with
  | [] => c
  | _ :: rest =>
    let buf := (rest.map (fun k : BChild => (k.offset, k.len)) ++ [(0, c.root.len)]).foldl
      (fun (b : List Nat) (ol : Nat × Nat) =>
        writeBytes (writeBytes b ol.1 (le32 ol.2)) (ol.1 + ol.2 - 1) [0])
      c.root.data
    { root := { data := buf, len := c.root.len, noGrow := c.root.noGrow }, kids := rest }

/-- Model of `bson_append_document_end` (bson.c:1210). -/
def bson_append_document_end (c : BChain) : BChain :=
  bson_append_bson_end c

/-- Model of `bson_append_array_end` (bson.c:1218). -/
def bson_append_array_end (c : BChain) : BChain :=
  bson_append_bson_end c

/-- Model of `bson_init` / `bson_new` (bson.c:206, 248): a fresh empty document,
`len = 5`, zeroed storage with `data[0] = 5`. -/
def bson_new : BRoot :=
  { data := [5, 0, 0, 0, 0], len := 5, noGrow := false }

/-- A fresh build chain over a new empty root document. -/
def bson_new_chain : BChain :=
  { root := bson_new, kids := [] }

/-! ## Construction from caller-supplied bytes, sized construction, growth -/

/-- The value of `INT_MAX` on the 32-bit `int` of the reference platform. -/
def INT_MAX : Nat := 2147483647

/-- Model of `bson_new_from_data` (bson.c:264): reject `length < 5`,
`length >= INT_MAX`, or a little-endian length prefix different from
`length`; otherwise allocate a new document and copy `length` bytes.
(Growth is modelled as succeeding; see `bson_grow_if_needed` for the
faithful abort model used by the sized-construction claim.) -/
def bson_new_from_data (data : List Nat) (length : Nat) : Option BRoot :=
  if length < 5 then none
  else if INT_MAX ≤ length then none
  else if readLE32 data 0 ≠ length then none
  else some { data := (padTo data length).take length, len := length, noGrow := false }

/-- Model of `bson_init_static` (bson.c:220), return value: FALSE when `length < 5`
or when the little-endian length prefix differs from `length`, TRUE
otherwise.  (The handle out-parameter is not needed by the claims.) -/
def bson_init_static (data : List Nat) (length : Nat) : Bool :=
  if length < 5 then false
  else readLE32 data 0 == length

/-- Modelled from the spec: the size of the inline byte area embedded in
`bson_t` (`sizeof bson->top.inlbuf`).  The struct lives in the public
header, which is not under src/; the spec only says the implementation
chooses a size so that small documents avoid allocation.  We fix the
original implementation's 120 bytes; no theorem depends on the exact
value beyond `inlbufSize` being below `2^30`. -/
def inlbufSize : Nat := 120

/-- A top-level handle together with its allocation bookkeeping
(`top.allocated`), needed to model `bson_grow_if_needed` faithfully. -/
structure BTop where
  data : List Nat
  len : Nat
  allocated : Nat
deriving DecidableEq, Repr

/-- The `asize = 64; while (asize < amin) asize <<= 1;` loop of
`bson_grow_if_needed` (bson.c:182).  Fuel-indexed for structural
recursion; 64 doublings cover every reachable `amin`. -/
def growSize : Nat → Nat → Nat → Nat
  | 0, asize, _ => asize
  | fuel + 1, asize, amin => if asize < amin then growSize fuel (asize * 2) amin else asize

/-- Model of `bson_grow_if_needed` (bson.c:136) on a top-level (non-child,
non-writer) handle.  `none` models the `abort()` when the doubled
allocation reaches `INT_MAX`.  The zero-filled extension mirrors
`bson_malloc0`; on the `realloc` path only bytes below `len` are ever
read afterwards. -/
def bson_grow_if_needed (b : BTop) (additional : Nat) : Option BTop :=
  let amin := b.len + additional
  if amin ≤ inlbufSize ∨ amin < b.allocated then some b
  else
    let asize := growSize 64 64 amin
    if INT_MAX ≤ asize then none
    else if 0 < b.allocated then
      some { data := padTo b.data asize, len := b.len, allocated := asize }
    else
      some { data := padTo (b.data.take b.len) asize, len := b.len, allocated := asize }

/-- Model of `bson_new` (bson.c:248) as a `BTop`: zeroed storage (`bson_malloc0`),
`len = 5`, `data[0] = 5`, nothing heap-allocated yet. -/
def bson_new_top : BTop :=
  { data := [5, 0, 0, 0, 0], len := 5, allocated := 0 }

/-- The observable outcomes of `bson_sized_new`: a NULL return (argument
check failure), a process abort inside `bson_grow_if_needed`, or a
handle. -/
inductive SizedNewResult where
  | null : SizedNewResult
  | aborted : SizedNewResult
  | ok : BTop → SizedNewResult
deriving DecidableEq, Repr

/-- Model of `bson_sized_new` (bson.c:293): reject `size < 5` and
`size >= INT_MAX`, then grow a fresh `bson_new()` handle by
`size - b->len` bytes. -/
def bson_sized_new (size : Nat) : SizedNewResult :=
  if size < 5 then SizedNewResult.null
  else if INT_MAX ≤ size then SizedNewResult.null
  else
    match bson_grow_if_needed bson_new_top (size - 5) with
    | none => SizedNewResult.aborted
    | some b => SizedNewResult.ok b

/-! ## Comparison -/

/-- Model of `memcmp` over `n` bytes: zero if the ranges agree, otherwise the
difference of the first differing byte pair (whose sign is memcmp's
contract). -/
def memcmpBytes : List Nat → List Nat → Nat → Int
  | _, _, 0 => 0
  | a, b, n + 1 =>
    if a.headD 0 = b.headD 0 then memcmpBytes a.tail b.tail n
    else (a.headD 0 : Int) - (b.headD 0 : Int)

/-- The value a `bson_uint32_t` takes when assigned to `int cmp`
(two's-complement conversion). -/
def toInt32 (u : Nat) : Int :=
  if u < 2147483648 then (u : Int) else (u : Int) - 4294967296

/-- Model of `bson_compare` (bson.c:1099): `cmp = bson->len - other->len` is a
`uint32` subtraction assigned to `int`; when it is nonzero it is
returned, otherwise `memcmp` over `bson->len` bytes decides. -/
def bson_compare (a b : BRoot) : Int :=
  let cmp := toInt32 ((a.len % 4294967296 + 4294967296 - b.len % 4294967296) % 4294967296)
  if cmp ≠ 0 then cmp else memcmpBytes a.data b.data a.len

/-- Model of `bson_equal` (bson.c:1118): `!bson_compare(bson, other)`. -/
def bson_equal (a b : BRoot) : Bool :=
  bson_compare a b == 0

/-! ## Iterator layout, visitor traversal, and the validator

`bson-iter.c` is not under src/, so the iterator and `bson_iter_visit_all`
are modelled from the spec (§4.4–§4.5).  The validator callbacks
(`bson_iter_validate_before`, `bson_iter_validate_utf8`,
`bson_iter_validate_corrupt`, `bson_iter_validate_document`) and
`bson_validate` itself are translated from src/bson/bson.c (lines
329–446); the traversal below is `bson_iter_visit_all` specialised to the
`bson_validate_funcs` visitor table. -/

/-- Modelled from the spec: scan for the first NUL byte at a position
`≥ i` (the key-terminator search of iterator `next`, §4.4 step 2).
Fuel-indexed for structural recursion; `doc.length` units always
suffice. -/
def findZeroAux : Nat → List Nat → Nat → Option Nat
  | 0, _, _ => none
  | fuel + 1, doc, i =>
    if i < doc.length then
      if byteAt doc i = 0 then some i else findZeroAux fuel doc (i + 1)
    else none

/-- First NUL byte of `doc` at a position `≥ i`, if any. -/
def findZeroFrom (doc : List Nat) (i : Nat) : Option Nat :=
  findZeroAux doc.length doc i

/-- Modelled from the spec: parse the element starting at position `p`
(§4.4 steps 1–4 and the layout table of §3).  Returns
`some (v, size)` with `v` the start of the value and `size` the whole
element's byte count (tag, key, NUL, value); `none` means the iterator
records corruption at offset `p`: the key has no NUL before the document
terminator, the type tag is unknown, or the value's declared extent
crosses the terminator. -/
def elemParse (doc : List Nat) (p : Nat) : Option (Nat × Nat) :=
  match findZeroFrom doc (p + 1) with
  | none => none
  | some z =>
    if doc.length - 1 ≤ z then none
    else
      let v := z + 1
      let tag := byteAt doc p
      let vsize? : Option Nat :=
        if tag = 1 ∨ tag = 9 ∨ tag = 17 ∨ tag = 18 then some 8
        else if tag = 16 then some 4
        else if tag = 7 then some 12
        else if tag = 6 ∨ tag = 10 ∨ tag = 255 ∨ tag = 127 then some 0
        else if tag = 8 then some 1
        else if tag = 2 ∨ tag = 13 ∨ tag = 14 then some (4 + readLE32 doc v)
        else if tag = 5 then some (5 + readLE32 doc v)
        else if tag = 3 ∨ tag = 4 ∨ tag = 15 then some (readLE32 doc v)
        else if tag = 12 then some (16 + readLE32 doc v)
        else if tag = 11 then
          match findZeroFrom doc v with
          | none => none
          | some z1 =>
            match findZeroFrom doc (z1 + 1) with
            | none => none
            | some z2 => some (z2 + 1 - v)
        else none
      match vsize? with
      | none => none
      | some vs => if v + vs ≤ doc.length - 1 then some (v, v + vs - p) else none

/-- Modelled from the spec: the byte range the iterator's document/array
accessor exposes — the declared number of bytes starting at the embedded
document's length prefix (§4.4). -/
def childSlice (doc : List Nat) (v : Nat) : List Nat :=
  (doc.drop v).take (readLE32 doc v)

/-- Modelled from the spec: `bson_iter_init` verifies `length ≥ 5`, a
matching little-endian length prefix, and a `0x00` terminator at the last
byte (§4.4). -/
def bson_iter_init_ok (doc : List Nat) : Bool :=
  decide (5 ≤ doc.length) && (readLE32 doc 0 == doc.length)
    && (byteAt doc (doc.length - 1) == 0)

/-- A UTF-8 continuation byte (`10xxxxxx`). -/
def utf8Cont (c : Nat) : Bool :=
  128 ≤ c && c ≤ 191

/-- Modelled from the spec: the external primitive
`bson_utf8_validate(bytes, len, allow_embedded_nul)` has the contract
"UTF-8 validation" (§6); we use standard UTF-8 sequence well-formedness. -/
def utf8Seq : List Nat → Bool
  | [] => true
  | c :: r =>
    if c ≤ 127 then utf8Seq r
    else if c ≤ 193 then false
    else if c ≤ 223 then
      match r with
      | c1 :: r2 => utf8Cont c1 && utf8Seq r2
      | [] => false
    else if c ≤ 239 then
      match r with
      | c1 :: c2 :: r2 => utf8Cont c1 && utf8Cont c2 && utf8Seq r2
      | _ => false
    else if c ≤ 244 then
      match r with
      | c1 :: c2 :: c3 :: r2 => utf8Cont c1 && utf8Cont c2 && utf8Cont c3 && utf8Seq r2
      | _ => false
    else false

/-- Modelled from the spec: `bson_utf8_validate`; `allow_null` permits
embedded NUL bytes (§4.6). -/
def bson_utf8_validate (s : List Nat) (allowNull : Bool) : Bool :=
  utf8Seq s && (allowNull || s.all (fun b => b != 0))

/-- The `bson_validate_flags_t` bits, one Bool per flag. -/
structure VFlags where
  utf8 : Bool
  utf8AllowNull : Bool
  dollarKeys : Bool
  dotKeys : Bool
deriving DecidableEq, Repr

/-- The check `key[0] == '$'` — the DOLLAR_KEYS check of `bson_iter_validate_before`
(bson.c:368); the key starts at byte `p + 1` of its element. -/
def keyStartsDollar (doc : List Nat) (p : Nat) : Bool :=
  byteAt doc (p + 1) == 36

/-- The check `strstr(key, ".")` — the DOT_KEYS check of `bson_iter_validate_before`
(bson.c:375); the key occupies bytes `[p + 1, z)`. -/
def keyHasDot (doc : List Nat) (p z : Nat) : Bool :=
  (List.range (z - (p + 1))).any (fun i => byteAt doc (p + 1 + i) == 46)

/-- One level of `bson_iter_visit_all` specialised to the validator's
visitor table `bson_validate_funcs` (bson.c:392).  `e` is the incoming
`err_offset` state (`none` = no error recorded); the result is the final
`err_offset`.  A violation stores the current element's offset and stops
the level (the callbacks return TRUE); iterator corruption stores the
element's offset through `bson_iter_validate_corrupt`; an embedded
document that fails `bson_iter_init` stores the element's offset and
stops the level; a visited embedded document contributes whatever its own
traversal recorded, and the level continues
(`bson_iter_validate_document` returns FALSE).  Offsets recorded inside an
embedded document are relative to that embedded document, because the
accessor's sub-handle starts at the embedded document's first byte.
Fuel-indexed; each element consumes one unit and `doc.length` units
always suffice. -/
def valLoop (fl : VFlags) : Nat → List Nat → Nat → Option Nat → Option Nat
  | 0, _, _, e => e
  | fuel + 1, doc, p, e =>
    if p = doc.length - 1 then e
    else
      match elemParse doc p with
      | none => some p
      | some (v, sz) =>
        if fl.dollarKeys && keyStartsDollar doc p then some p
        else if fl.dotKeys && keyHasDot doc p (v - 1) then some p
        else
          let tag := byteAt doc p
          if tag = 2 then
            if fl.utf8 &&
                !(bson_utf8_validate ((doc.drop (v + 4)).take (readLE32 doc v - 1))
                    fl.utf8AllowNull) then
              some p
            else valLoop fl fuel doc (p + sz) e
          else if tag = 3 ∨ tag = 4 then
            if !(bson_iter_init_ok (childSlice doc v)) then some p
            else valLoop fl fuel doc (p + sz) (valLoop fl fuel (childSlice doc v) 4 e)
          else valLoop fl fuel doc (p + sz) e

/-- Model of `bson_validate` (bson.c:425): a failing top-level `bson_iter_init`
reports offset 0; otherwise the traversal runs with `err_offset = -1` and
the document is valid iff no error offset was recorded.  The returned
pair is `(ok, err_offset)` with `none` standing for the initial `-1`. -/
def bson_validate (doc : List Nat) (fl : VFlags) : Bool × Option Nat :=
  if !(bson_iter_init_ok doc) then (false, some 0)
  else
    match valLoop fl doc.length doc 4 none with
    | none => (true, none)
    | some off => (false, some off)

/-- The empty flag set, `flags = 0`. -/
def noFlags : VFlags :=
  { utf8 := false, utf8AllowNull := false, dollarKeys := false, dotKeys := false }

/-- Reference checker: the elements of `doc` from position `p` parse
cleanly up to the terminator, and every embedded document or array is
recursively well-formed.  Its recursion has exactly the shape of
`valLoop`, so the two can be related by induction on the shared fuel. -/
def wfE : Nat → List Nat → Nat → Bool
  | 0, _, _ => false
  | fuel + 1, doc, p =>
    if p = doc.length - 1 then true
    else
      match elemParse doc p with
      | none => false
      | some (v, sz) =>
        let tag := byteAt doc p
        if tag = 3 ∨ tag = 4 then
          bson_iter_init_ok (childSlice doc v) && wfE fuel (childSlice doc v) 4
            && wfE fuel doc (p + sz)
        else wfE fuel doc (p + sz)

/-- A structurally well-formed document: good header and terminator, and
cleanly parsing, recursively well-formed elements. -/
def wellFormedDoc (doc : List Nat) : Bool :=
  bson_iter_init_ok doc && wfE doc.length doc 4

/-- Reference enumeration, worded from the spec's DOLLAR_KEYS policy: the
offsets, relative to the start of `doc`, of every element — including
elements of embedded documents and arrays — whose key begins with the
dollar character. -/
def dollarOffsets : Nat → List Nat → Nat → List Nat
  | 0, _, _ => []
  | fuel + 1, doc, p =>
    if p = doc.length - 1 then []
    else
      match elemParse doc p with
      | none => []
      | some (v, sz) =>
        (if keyStartsDollar doc p then [p] else [])
        ++ (if byteAt doc p = 3 ∨ byteAt doc p = 4 then
              (dollarOffsets fuel (childSlice doc v) 4).map (fun o => v + o)
            else [])
        ++ dollarOffsets fuel doc (p + sz)

/-! ## Helper lemmas about buffers and fields -/

@[simp] theorem le32_length (n : Nat) : (le32 n).length = 4 := rfl

@[simp] theorem le64_length (n : Nat) : (le64 n).length = 8 := rfl

@[simp] theorem length_padTo (buf : List Nat) (n : Nat) :
    (padTo buf n).length = max buf.length n := by
  unfold padTo; simp; omega

theorem byteAt_eq (buf : List Nat) (i : Nat) : byteAt buf i = (buf[i]?).getD 0 :=
  List.getD_eq_getElem?_getD buf i 0

theorem byteAt_padTo (buf : List Nat) (n i : Nat) :
    byteAt (padTo buf n) i = byteAt buf i := by
  unfold padTo
  rw [byteAt_eq, byteAt_eq]
  rcases Nat.lt_or_ge i buf.length with h | h
  · rw [List.getElem?_append_left h]
  · rw [List.getElem?_append_right h, List.getElem?_eq_none_iff.2 h]
    rcases Nat.lt_or_ge (i - buf.length) (n - buf.length) with h2 | h2
    · rw [List.getElem?_replicate_of_lt h2]
      rfl
    · rw [List.getElem?_eq_none_iff.2 (by simpa using h2)]

/-- How one `memcpy` changes each byte of the buffer: positions inside the
written range read the written data, all other positions are unchanged. -/
theorem byteAt_writeBytes (buf : List Nat) (p : Nat) (d : List Nat) (i : Nat) :
    byteAt (writeBytes buf p d) i =
      if p ≤ i ∧ i < p + d.length then byteAt d (i - p) else byteAt buf i := by
  unfold writeBytes
  rw [List.append_assoc]
  have hpad : ∀ j, byteAt (padTo buf (p + d.length)) j = byteAt buf j :=
    byteAt_padTo buf (p + d.length)
  generalize hpb : padTo buf (p + d.length) = b at *
  have hblen : b.length = max buf.length (p + d.length) := by rw [← hpb]; simp
  have htake : (b.take p).length = min p b.length := by simp
  by_cases h1 : i < p
  · rw [if_neg (by omega), byteAt_eq, List.getElem?_append_left (by omega),
      List.getElem?_take_of_lt h1, ← byteAt_eq, hpad]
  · by_cases h2 : i < p + d.length
    · rw [if_pos ⟨by omega, h2⟩, byteAt_eq,
        List.getElem?_append_right (by omega : (b.take p).length ≤ i),
        List.getElem?_append_left (by omega), htake, ← byteAt_eq]
      congr 1
      omega
    · rw [if_neg (by omega), byteAt_eq,
        List.getElem?_append_right (by omega : (b.take p).length ≤ i),
        List.getElem?_append_right (by simp; omega), List.getElem?_drop, ← byteAt_eq,
        ← hpad i]
      congr 1
      simp
      omega

theorem byteAt_writeBytes_lt (buf : List Nat) (p : Nat) (d : List Nat) (i : Nat)
    (h : i < p) : byteAt (writeBytes buf p d) i = byteAt buf i := by
  rw [byteAt_writeBytes, if_neg (by omega)]

theorem byteAt_writeBytes_ge (buf : List Nat) (p : Nat) (d : List Nat) (i : Nat)
    (h : p + d.length ≤ i) : byteAt (writeBytes buf p d) i = byteAt buf i := by
  rw [byteAt_writeBytes, if_neg (by omega)]

theorem byteAt_writeBytes_in (buf : List Nat) (p : Nat) (d : List Nat) (i : Nat)
    (h : i < d.length) : byteAt (writeBytes buf p d) (p + i) = byteAt d i := by
  rw [byteAt_writeBytes, if_pos ⟨by omega, by omega⟩]
  congr 1
  omega

theorem byteAt_append_left (x z : List Nat) (j : Nat) (h : j < x.length) :
    byteAt (x ++ z) j = byteAt x j := by
  rw [byteAt_eq, byteAt_eq, List.getElem?_append_left h]

theorem byteAt_append_right (x z : List Nat) (j : Nat) :
    byteAt (x ++ z) (x.length + j) = byteAt z j := by
  rw [byteAt_eq, byteAt_eq, List.getElem?_append_right (by omega),
    Nat.add_sub_cancel_left]

@[simp] theorem byteAt_le32_0 (n : Nat) : byteAt (le32 n) 0 = n % 256 := rfl

@[simp] theorem byteAt_le32_1 (n : Nat) : byteAt (le32 n) 1 = n / 256 % 256 := rfl

@[simp] theorem byteAt_le32_2 (n : Nat) : byteAt (le32 n) 2 = n / 65536 % 256 := rfl

@[simp] theorem byteAt_le32_3 (n : Nat) : byteAt (le32 n) 3 = n / 16777216 % 256 := rfl

/-- Writing `x ++ le32 n ++ y` at position `p` makes the 32-bit field at
`p + x.length` decode to `n` (modulo the 32-bit truncation the encoder
performs byte by byte). -/
theorem readLE32_write_field (b : List Nat) (p : Nat) (x y : List Nat) (n : Nat) :
    readLE32 (writeBytes b p (x ++ le32 n ++ y)) (p + x.length) = n % 4294967296 := by
  have hlen : (x ++ le32 n ++ y).length = x.length + 4 + y.length := by
    simp
    omega
  have hb : ∀ j, j < 4 → byteAt (x ++ le32 n ++ y) (x.length + j) = byteAt (le32 n) j := by
    intro j hj
    rw [List.append_assoc, byteAt_append_right, byteAt_append_left _ _ _ (by simp; omega)]
  have e0 : byteAt (writeBytes b p (x ++ le32 n ++ y)) (p + x.length)
      = byteAt (le32 n) 0 := by
    rw [byteAt_writeBytes_in b p _ x.length (by omega)]
    simpa using hb 0 (by omega)
  have e1 : byteAt (writeBytes b p (x ++ le32 n ++ y)) (p + x.length + 1)
      = byteAt (le32 n) 1 := by
    have h := byteAt_writeBytes_in b p (x ++ le32 n ++ y) (x.length + 1) (by omega)
    rw [← Nat.add_assoc] at h
    rw [h, hb 1 (by omega)]
  have e2 : byteAt (writeBytes b p (x ++ le32 n ++ y)) (p + x.length + 2)
      = byteAt (le32 n) 2 := by
    have h := byteAt_writeBytes_in b p (x ++ le32 n ++ y) (x.length + 2) (by omega)
    rw [← Nat.add_assoc] at h
    rw [h, hb 2 (by omega)]
  have e3 : byteAt (writeBytes b p (x ++ le32 n ++ y)) (p + x.length + 3)
      = byteAt (le32 n) 3 := by
    have h := byteAt_writeBytes_in b p (x ++ le32 n ++ y) (x.length + 3) (by omega)
    rw [← Nat.add_assoc] at h
    rw [h, hb 3 (by omega)]
  unfold readLE32
  rw [e0, e1, e2, e3]
  simp
  omega

/-- A write entirely before or after a 32-bit field leaves it unchanged. -/
theorem readLE32_writeBytes_out (b : List Nat) (p : Nat) (d : List Nat) (q : Nat)
    (h : q + 4 ≤ p ∨ p + d.length ≤ q) :
    readLE32 (writeBytes b p d) q = readLE32 b q := by
  unfold readLE32
  simp only [byteAt_writeBytes]
  repeat rw [if_neg (by omega)]

@[simp] theorem byteAt_le64_0 (n : Nat) : byteAt (le64 n) 0 = n % 256 := rfl

@[simp] theorem byteAt_le64_1 (n : Nat) : byteAt (le64 n) 1 = n / 256 % 256 := rfl

@[simp] theorem byteAt_le64_2 (n : Nat) : byteAt (le64 n) 2 = n / 65536 % 256 := rfl

@[simp] theorem byteAt_le64_3 (n : Nat) : byteAt (le64 n) 3 = n / 16777216 % 256 := rfl

@[simp] theorem byteAt_le64_4 (n : Nat) : byteAt (le64 n) 4 = n / 4294967296 % 256 := rfl

@[simp] theorem byteAt_le64_5 (n : Nat) : byteAt (le64 n) 5 = n / 1099511627776 % 256 := rfl

@[simp] theorem byteAt_le64_6 (n : Nat) : byteAt (le64 n) 6 = n / 281474976710656 % 256 := rfl

@[simp] theorem byteAt_le64_7 (n : Nat) :
    byteAt (le64 n) 7 = n / 72057594037927936 % 256 := rfl

/-- Writing `x ++ le64 n ++ y` at position `p` makes the 64-bit field at
`p + x.length` decode to `n` (modulo 64-bit truncation). -/
theorem readLE64_write_field (b : List Nat) (p : Nat) (x y : List Nat) (n : Nat) :
    readLE64 (writeBytes b p (x ++ le64 n ++ y)) (p + x.length)
      = n % 18446744073709551616 := by
  have hlen : (x ++ le64 n ++ y).length = x.length + 8 + y.length := by
    simp
    omega
  have hb : ∀ j, j < 8 → byteAt (x ++ le64 n ++ y) (x.length + j) = byteAt (le64 n) j := by
    intro j hj
    rw [List.append_assoc, byteAt_append_right, byteAt_append_left _ _ _ (by simp; omega)]
  have e0 : byteAt (writeBytes b p (x ++ le64 n ++ y)) (p + x.length)
      = byteAt (le64 n) 0 := by
    rw [byteAt_writeBytes_in b p _ x.length (by omega)]
    simpa using hb 0 (by omega)
  have ek : ∀ k, 0 < k → k < 8 →
      byteAt (writeBytes b p (x ++ le64 n ++ y)) (p + x.length + k) = byteAt (le64 n) k := by
    intro k _ hk8
    have h := byteAt_writeBytes_in b p (x ++ le64 n ++ y) (x.length + k) (by omega)
    rw [← Nat.add_assoc] at h
    rw [h, hb k (by omega)]
  unfold readLE64
  rw [e0, ek 1 (by omega) (by omega), ek 2 (by omega) (by omega), ek 3 (by omega) (by omega),
    ek 4 (by omega) (by omega), ek 5 (by omega) (by omega), ek 6 (by omega) (by omega),
    ek 7 (by omega) (by omega)]
  simp
  omega

/-- A write entirely before or after a 64-bit field leaves it unchanged. -/
theorem readLE64_writeBytes_out (b : List Nat) (p : Nat) (d : List Nat) (q : Nat)
    (h : q + 8 ≤ p ∨ p + d.length ≤ q) :
    readLE64 (writeBytes b p d) q = readLE64 b q := by
  unfold readLE64
  simp only [byteAt_writeBytes]
  repeat rw [if_neg (by omega)]


theorem readLE32_write_self (b : List Nat) (p n : Nat) :
    readLE32 (writeBytes b p (le32 n)) p = n % 4294967296 := by
  have h := readLE32_write_field b p [] [] n
  simpa using h

/-- The buffer produced by `bson_append_va` (when it does not hit the
read-only early return): the chunks at the old terminator, then the new
terminator, then the re-encoded leaf length prefix. -/
theorem bson_append_va_data (c : BChain) (chunks : List (List Nat))
    (hg : c.kids = [] → c.root.noGrow = false) :
    (bson_append_va c chunks).root.data =
      writeBytes (writeBytes (writeBytes c.root.data
          (leafOffset c + leafLen c - 1) chunks.flatten)
          (leafOffset c + (leafLen c + chunks.flatten.length) - 1) [0])
        (leafOffset c) (le32 (leafLen c + chunks.flatten.length)) := by
  obtain ⟨root, kids⟩ := c
  cases kids with
  | nil =>
    have hng : root.noGrow = false := hg rfl
    simp [bson_append_va, hng, leafOffset, leafLen]
  | cons leaf rest =>
    simp [bson_append_va, leafOffset, leafLen]

/-- The bookkeeping effect of `bson_append_va` (when it does not hit the
read-only early return): offsets are unchanged, the leaf's and every
ancestor's `len` grow by the total chunk length. -/
theorem bson_append_va_fields (c : BChain) (chunks : List (List Nat))
    (hg : c.kids = [] → c.root.noGrow = false) :
    leafOffset (bson_append_va c chunks) = leafOffset c
    ∧ leafLen (bson_append_va c chunks) = leafLen c + chunks.flatten.length
    ∧ (bson_append_va c chunks).root.len = c.root.len + chunks.flatten.length
    ∧ (bson_append_va c chunks).root.noGrow = c.root.noGrow
    ∧ (bson_append_va c chunks).kids.map (fun k => k.offset)
        = c.kids.map (fun k => k.offset)
    ∧ (bson_append_va c chunks).kids.map (fun k => k.len)
        = c.kids.map (fun k => k.len + chunks.flatten.length) := by
  obtain ⟨root, kids⟩ := c
  cases kids with
  | nil =>
    have hng : root.noGrow = false := hg rfl
    simp [bson_append_va, hng, leafOffset, leafLen]
  | cons leaf rest =>
    simp [bson_append_va, leafOffset, leafLen, Function.comp]

/-! ## C1 — what one append re-encodes -/

/-- C1 (amended): after an append (`bson_append_va`) on the innermost open
handle, the encoder writes `0x00` at the new last byte and re-encodes the
length prefix of the handle appended to — so that handle's first four
bytes equal its new length in little-endian and its last byte is `0x00` —
and it increments the `len` field of every ancestor on the child-chain by
the total growth; the ancestors' length prefixes themselves are not
re-written by the append (they are re-encoded by
`bson_append_bson_begin`/`bson_append_bson_end`). -/
theorem c1_append_reencodes_leaf (c : BChain) (chunks : List (List Nat))
    (h5 : 5 ≤ leafLen c) (hg : c.kids = [] → c.root.noGrow = false) :
    readLE32 (bson_append_va c chunks).root.data (leafOffset c)
        = (leafLen c + chunks.flatten.length) % 4294967296
    ∧ byteAt (bson_append_va c chunks).root.data
        (leafOffset c + (leafLen c + chunks.flatten.length) - 1) = 0
    ∧ leafLen (bson_append_va c chunks) = leafLen c + chunks.flatten.length
    ∧ leafOffset (bson_append_va c chunks) = leafOffset c
    ∧ (bson_append_va c chunks).root.len = c.root.len + chunks.flatten.length
    ∧ (bson_append_va c chunks).kids.map (fun k => k.len)
        = c.kids.map (fun k => k.len + chunks.flatten.length) := by
  obtain ⟨hoff, hlen, hroot, hng, hoffs, hlens⟩ := bson_append_va_fields c chunks hg
  refine ⟨?_, ?_, hlen, hoff, hroot, hlens⟩
  · rw [bson_append_va_data c chunks hg, readLE32_write_self]
  · rw [bson_append_va_data c chunks hg]
    rw [byteAt_writeBytes_ge _ _ _ _ (by simp; omega)]
    have h := byteAt_writeBytes_in
      (writeBytes c.root.data (leafOffset c + leafLen c - 1) chunks.flatten)
      (leafOffset c + (leafLen c + chunks.flatten.length) - 1) [0] 0 (by simp)
    simpa using h

/-- C1, counterexample: begin a child `"x"` on a fresh document and append
`"y" : int32 1` to the child.  The root's `len` is now 20 but its length
prefix still reads 13 (written at `begin` time), so it is not the case
that after the append every handle on the chain has its first four bytes
equal to its length. -/
theorem c1_ancestor_prefix_stale :
    readLE32 (bson_append_int32
        (bson_append_bson_begin bson_new_chain 3 [120]) [121] 1).root.data 0 = 13
    ∧ (bson_append_int32
        (bson_append_bson_begin bson_new_chain 3 [120]) [121] 1).root.len = 20
    ∧ (13 : Nat) ≠ 20 % 4294967296 := by
  refine ⟨by decide, by decide, by decide⟩

/-- C1, witness: appending `"a" : null` to a fresh root document. -/
theorem c1_append_reencodes_leaf_witness :
    readLE32 (bson_append_va bson_new_chain [[10], [97], [0]]).root.data 0
        = 8 % 4294967296
    ∧ byteAt (bson_append_va bson_new_chain [[10], [97], [0]]).root.data 7 = 0 := by
  have h := c1_append_reencodes_leaf bson_new_chain [[10], [97], [0]]
    (by decide) (fun _ => rfl)
  exact ⟨h.1, h.2.1⟩

/-! ## C2 — child ranges after `append …_end` -/

/-- C2 (bug evaluation): open a child `"x"` on a fresh document with
`bson_append_document_begin` and close it immediately with
`bson_append_document_end` (the empty sequence of child appends).  The
child handle records `offset = 7`, `len = 5`, but the five bytes of its
range were never written: its length prefix reads 0, not 5, so the range
`root_buffer[7 .. 12)` is not a well-formed document — neither
`bson_append_bson_begin` nor `bson_append_bson_end` ever encodes the
child's own empty-document bytes. -/
theorem c2_empty_child_ill_formed :
    (bson_append_document_begin bson_new_chain [120]).kids
        = [{ offset := 7, len := 5 }]
    ∧ readLE32 (bson_append_document_end
        (bson_append_document_begin bson_new_chain [120])).root.data 7 = 0
    ∧ wellFormedDoc (((bson_append_document_end
        (bson_append_document_begin bson_new_chain [120])).root.data.drop 7).take 5)
        = false
    ∧ (0 : Nat) ≠ 5 := by
  refine ⟨by decide, by decide, by decide, by decide⟩

/-- Boundary of the empty-child slip: one element append on the child is
enough, because `bson_append_va` itself encodes the child's length prefix
and terminator — after `begin("x")`, `append_int32(child, "y", 1)` and
`end`, the child's recorded range `[7, 7 + 12)` is a well-formed
document. -/
theorem child_range_wellformed_after_one_append :
    (bson_append_int32 (bson_append_document_begin bson_new_chain [120]) [121] 1).kids
        = [{ offset := 7, len := 12 }]
    ∧ wellFormedDoc (((bson_append_document_end (bson_append_int32
        (bson_append_document_begin bson_new_chain [120]) [121] 1)).root.data.drop 7).take 12)
      = true := by
  refine ⟨by decide, by decide⟩

/-! ## C5 — appends on static-read-only handles -/

/-- C5 (amended): every element append — every operation routed through
`bson_append_va` — on a static-read-only root handle is a no-op: the
length field and every byte of the buffer are unchanged, and nothing is
reported to the caller (the appenders return `void`).
`bson_append_document_begin`/`bson_append_array_begin`, however, are not
no-ops on a static handle (see the counterexample). -/
theorem c5_static_append_noop (c : BChain) (chunks : List (List Nat))
    (hk : c.kids = []) (hng : c.root.noGrow = true) :
    bson_append_va c chunks = c := by
  obtain ⟨root, kids⟩ := c
  simp only at hk hng
  subst hk
  simp [bson_append_va, hng]

/-- C5, witness: appending `"a" : null` to a static handle over the
minimal document leaves it unchanged. -/
theorem c5_static_append_noop_witness :
    bson_append_va
        { root := { data := [5, 0, 0, 0, 0], len := 5, noGrow := true }, kids := [] }
        [[10], [97], [0]]
      = { root := { data := [5, 0, 0, 0, 0], len := 5, noGrow := true }, kids := [] } :=
  c5_static_append_noop _ _ rfl rfl

/-- C5, counterexample: `bson_append_document_begin` on a static-read-only
handle is an append operation that is *not* a no-op: only the element
header append inside it is suppressed by the read-only check, after which
the child is still installed, the root's `len` still grows by 5 and its
length prefix is still re-encoded in place — mutating the caller's
read-only bytes from `05 00 00 00 00` to `0A 00 00 00 00`. -/
theorem c5_begin_mutates_static :
    (bson_append_bson_begin
        { root := { data := [5, 0, 0, 0, 0], len := 5, noGrow := true }, kids := [] }
        3 [120]).root.len = 10
    ∧ (bson_append_bson_begin
        { root := { data := [5, 0, 0, 0, 0], len := 5, noGrow := true }, kids := [] }
        3 [120]).root.data = [10, 0, 0, 0, 0]
    ∧ ([10, 0, 0, 0, 0] ≠ ([5, 0, 0, 0, 0] : List Nat)) := by
  refine ⟨by decide, by decide, by decide⟩

/-! ## C6 — code-with-scope with an empty or absent scope -/

/-- C6: `bson_append_code_with_scope` with an absent (NULL) scope or an
empty scope (`len ≤ 5`) produces exactly the same document state as
`bson_append_code` with the same handle, key and javascript. -/
theorem c6_code_with_scope_empty (c : BChain) (key js : List Nat)
    (scope : Option BRoot)
    (h : scope = none ∨ ∃ s, scope = some s ∧ s.len ≤ 5) :
    bson_append_code_with_scope c key js scope = bson_append_code c key js := by
  have he : bson_empty0 scope = true := by
    rcases h with h | ⟨s, rfl, hs⟩
    · simp [h, bson_empty0]
    · simpa [bson_empty0] using hs
  unfold bson_append_code_with_scope
  rw [he]
  simp

/-- C6, witness: absent scope on a fresh document. -/
theorem c6_code_with_scope_empty_witness :
    bson_append_code_with_scope bson_new_chain [97] [106] none
      = bson_append_code bson_new_chain [97] [106] :=
  c6_code_with_scope_empty bson_new_chain [97] [106] none (Or.inl rfl)

/-! ## C7 — utf8 appends -/

/-- C7: `bson_append_utf8` with a NULL value produces exactly the same
document state as `bson_append_null` with the same handle and key; with a
non-NULL value, the stored int32 length field (right after the tag, key
and key NUL) is the value's byte count plus one, and the byte after the
value bytes — accounted for by that `+ 1` — is the trailing NUL. -/
theorem c7_utf8_null_and_length (c : BChain) (key v : List Nat)
    (h5 : 5 ≤ leafLen c) (hg : c.kids = [] → c.root.noGrow = false) :
    bson_append_utf8 c key none = bson_append_null c key
    ∧ readLE32 (bson_append_utf8 c key (some v)).root.data
        (leafOffset c + leafLen c - 1 + (key.length + 2)) = (v.length + 1) % 4294967296
    ∧ byteAt (bson_append_utf8 c key (some v)).root.data
        (leafOffset c + leafLen c - 1 + (key.length + 2) + 4 + v.length) = 0 := by
  have hdata : ([[2], key, gZero, le32 (v.length + 1), v, [0]] : List (List Nat)).flatten
      = ([2] ++ key ++ [0]) ++ le32 (v.length + 1) ++ (v ++ [0]) := by
    simp [gZero]
  have hfl : ([[2], key, gZero, le32 (v.length + 1), v, [0]] : List (List Nat)).flatten.length
      = key.length + v.length + 7 := by
    rw [hdata]
    simp
    omega
  refine ⟨rfl, ?_, ?_⟩
  · show readLE32 (bson_append_va c [[2], key, gZero, le32 (v.length + 1), v, [0]]).root.data
        _ = _
    rw [bson_append_va_data c _ hg]
    rw [readLE32_writeBytes_out _ _ _ _ (Or.inr (by simp; omega))]
    rw [readLE32_writeBytes_out _ _ _ _ (Or.inl (by rw [hfl]; omega))]
    rw [hdata]
    have h := readLE32_write_field c.root.data (leafOffset c + leafLen c - 1)
      ([2] ++ key ++ [0]) (v ++ [0]) (v.length + 1)
    have hx : (([2] : List Nat) ++ key ++ [0]).length = key.length + 2 := by
      simp
    rw [hx] at h
    exact h
  · show byteAt (bson_append_va c [[2], key, gZero, le32 (v.length + 1), v, [0]]).root.data
        _ = 0
    rw [bson_append_va_data c _ hg]
    rw [byteAt_writeBytes_ge _ _ _ _ (by simp; omega)]
    rw [byteAt_writeBytes_lt _ _ _ _ (by rw [hfl]; omega)]
    have hpos : leafOffset c + leafLen c - 1 + (key.length + 2) + 4 + v.length
        = leafOffset c + leafLen c - 1 + (key.length + 6 + v.length) := by omega
    rw [hpos, byteAt_writeBytes_in _ _ _ _ (by rw [hfl]; omega)]
    rw [hdata]
    have e1 : key.length + 6 + v.length
        = ((([2] : List Nat) ++ key ++ [0]) ++ le32 (v.length + 1)).length + v.length := by
      simp
    rw [e1, byteAt_append_right]
    have e3 : v.length = v.length + 0 := rfl
    rw [e3, byteAt_append_right]
    rfl

/-- C7, witness: `"a" : "hi"` and `"a" : NULL` on a fresh document. -/
theorem c7_utf8_null_and_length_witness :
    bson_append_utf8 bson_new_chain [97] none = bson_append_null bson_new_chain [97]
    ∧ readLE32 (bson_append_utf8 bson_new_chain [97] (some [104, 105])).root.data 7
        = 3 % 4294967296
    ∧ byteAt (bson_append_utf8 bson_new_chain [97] (some [104, 105])).root.data 13 = 0 := by
  have h := c7_utf8_null_and_length bson_new_chain [97] [104, 105] (by decide) (fun _ => rfl)
  exact ⟨h.1, h.2.1, h.2.2⟩

/-! ## C9 — timestamp elements -/

/-- The `uint64` build `(a << 32) | b` concatenates disjoint bit ranges,
so it equals `a * 2^32 + b` when `b` fits in 32 bits. -/
theorem shiftLeft32_lor_eq_add (a b : Nat) (h : b < 4294967296) :
    (a <<< 32) ||| b = a * 4294967296 + b := by
  apply Nat.eq_of_testBit_eq
  intro i
  rw [Nat.testBit_lor, Nat.testBit_shiftLeft, Nat.mul_comm a 4294967296,
    show (4294967296 : Nat) = 2 ^ 32 from rfl,
    Nat.testBit_mul_pow_two_add a (show b < 2 ^ 32 from h) i]
  by_cases hi : i < 32
  · simp [hi, Nat.not_le.mpr hi]
  · have h32 : 32 ≤ i := Nat.le_of_not_lt hi
    have hb : b.testBit i = false :=
      Nat.testBit_lt_two_pow
        (lt_of_lt_of_le (show b < 2 ^ 32 from h) (Nat.pow_le_pow_right (by norm_num) h32))
    simp [hi, h32, hb]

/-- C9: `bson_append_timestamp` appends an element whose type tag is
`0x11` and whose 8-byte value decodes, in little-endian, to the 64-bit
integer with high 32 bits `timestamp` and low 32 bits `increment`. -/
theorem c9_timestamp_packs_words (c : BChain) (key : List Nat) (ts inc : Nat)
    (h5 : 5 ≤ leafLen c) (hg : c.kids = [] → c.root.noGrow = false)
    (hts : ts < 4294967296) (hinc : inc < 4294967296) :
    byteAt (bson_append_timestamp c key ts inc).root.data
        (leafOffset c + leafLen c - 1) = 17
    ∧ readLE64 (bson_append_timestamp c key ts inc).root.data
        (leafOffset c + leafLen c - 1 + (key.length + 2)) / 4294967296 = ts
    ∧ readLE64 (bson_append_timestamp c key ts inc).root.data
        (leafOffset c + leafLen c - 1 + (key.length + 2)) % 4294967296 = inc := by
  have hvalue : ((ts % 4294967296) <<< 32) ||| (inc % 4294967296)
      = ts * 4294967296 + inc := by
    rw [Nat.mod_eq_of_lt hts, Nat.mod_eq_of_lt hinc,
      shiftLeft32_lor_eq_add ts inc hinc]
  set w := ((ts % 4294967296) <<< 32) ||| (inc % 4294967296) with hw
  have hdata : ([[17], key, gZero, le64 w] : List (List Nat)).flatten
      = ([17] ++ key ++ [0]) ++ le64 w ++ [] := by
    simp [gZero]
  have hfl : ([[17], key, gZero, le64 w] : List (List Nat)).flatten.length
      = key.length + 10 := by
    rw [hdata]
    simp
  have hread : readLE64 (bson_append_timestamp c key ts inc).root.data
      (leafOffset c + leafLen c - 1 + (key.length + 2)) = ts * 4294967296 + inc := by
    show readLE64 (bson_append_va c [[17], key, gZero, le64 w]).root.data _ = _
    rw [bson_append_va_data c _ hg]
    rw [readLE64_writeBytes_out _ _ _ _ (Or.inr (by simp; omega))]
    rw [readLE64_writeBytes_out _ _ _ _ (Or.inl (by rw [hfl]; omega))]
    rw [hdata]
    have h := readLE64_write_field c.root.data (leafOffset c + leafLen c - 1)
      ([17] ++ key ++ [0]) [] w
    have hx : (([17] : List Nat) ++ key ++ [0]).length = key.length + 2 := by simp
    rw [hx] at h
    rw [h, hvalue, Nat.mod_eq_of_lt (by omega)]
  refine ⟨?_, ?_, ?_⟩
  · show byteAt (bson_append_va c [[17], key, gZero, le64 w]).root.data _ = 17
    rw [bson_append_va_data c _ hg]
    rw [byteAt_writeBytes_ge _ _ _ _ (by simp; omega)]
    rw [byteAt_writeBytes_lt _ _ _ _ (by rw [hfl]; omega)]
    have h0 := byteAt_writeBytes_in c.root.data (leafOffset c + leafLen c - 1)
      (([[17], key, gZero, le64 w] : List (List Nat)).flatten) 0 (by rw [hfl]; omega)
    rw [Nat.add_zero] at h0
    rw [h0]
    rfl
  · rw [hread]
    omega
  · rw [hread]
    omega

/-- C9, witness: `"a" : timestamp (seconds 7, increment 9)` on a fresh
document. -/
theorem c9_timestamp_packs_words_witness :
    byteAt (bson_append_timestamp bson_new_chain [97] 7 9).root.data 4 = 17
    ∧ readLE64 (bson_append_timestamp bson_new_chain [97] 7 9).root.data 7
        / 4294967296 = 7
    ∧ readLE64 (bson_append_timestamp bson_new_chain [97] 7 9).root.data 7
        % 4294967296 = 9 := by
  have h := c9_timestamp_packs_words bson_new_chain [97] 7 9 (by decide) (fun _ => rfl)
    (by decide) (by decide)
  exact ⟨h.1, h.2.1, h.2.2⟩

/-! ## C4 — rejecting bad headers -/

/-- C4: `bson_new_from_data(B, length)` returns NULL and
`bson_init_static(_, B, length)` returns FALSE whenever `length < 5` or
the little-endian int32 prefix of `B` differs from `length` (which covers
any valid document truncated by three bytes). -/
theorem c4_reject_bad_header (data : List Nat) (length : Nat)
    (h : length < 5 ∨ readLE32 data 0 ≠ length) :
    bson_new_from_data data length = none ∧ bson_init_static data length = false := by
  unfold bson_new_from_data bson_init_static
  rcases h with h | h
  · simp [h]
  · rcases Nat.lt_or_ge length 5 with h5 | h5
    · simp [h5]
    · by_cases hm : INT_MAX ≤ length
      · simp [Nat.not_lt.mpr h5, hm, h]
      · simp [Nat.not_lt.mpr h5, hm, h]

/-- C4, witness: the 12-byte document `{"a": 1}` truncated to 9 bytes — its
prefix still reads 12. -/
theorem c4_reject_bad_header_witness :
    bson_new_from_data [12, 0, 0, 0, 16, 97, 0, 1, 0] 9 = none
    ∧ bson_init_static [12, 0, 0, 0, 16, 97, 0, 1, 0] 9 = false :=
  c4_reject_bad_header [12, 0, 0, 0, 16, 97, 0, 1, 0] 9 (Or.inr (by decide))

/-! ## C8 — compare and equal -/

theorem memcmpBytes_self (n : Nat) (a : List Nat) : memcmpBytes a a n = 0 := by
  induction n generalizing a with
  | zero => rfl
  | succ n ih => simp [memcmpBytes, ih]

theorem memcmpBytes_zero_symm (n : Nat) : ∀ a b : List Nat,
    memcmpBytes a b n = 0 → memcmpBytes b a n = 0 := by
  induction n with
  | zero => intro a b _; rfl
  | succ n ih =>
    intro a b h
    simp only [memcmpBytes] at h ⊢
    by_cases he : a.headD 0 = b.headD 0
    · rw [if_pos he] at h
      rw [if_pos he.symm]
      exact ih _ _ h
    · rw [if_neg he] at h
      exfalso
      omega
  

theorem memcmpBytes_zero_trans (n : Nat) : ∀ a b c : List Nat,
    memcmpBytes a b n = 0 → memcmpBytes b c n = 0 → memcmpBytes a c n = 0 := by
  induction n with
  | zero => intro a b c _ _; rfl
  | succ n ih =>
    intro a b c h1 h2
    simp only [memcmpBytes] at h1 h2 ⊢
    by_cases he1 : a.headD 0 = b.headD 0
    · by_cases he2 : b.headD 0 = c.headD 0
      · rw [if_pos he1] at h1
        rw [if_pos he2] at h2
        rw [if_pos (he1.trans he2)]
        exact ih _ _ _ h1 h2
      · rw [if_neg he2] at h2
        exfalso
        omega
    · rw [if_neg he1] at h1
      exfalso
      omega

theorem memcmpBytes_le_total (n : Nat) : ∀ a b : List Nat,
    memcmpBytes a b n ≤ 0 ∨ memcmpBytes b a n ≤ 0 := by
  induction n with
  | zero => intro a b; left; rfl
  | succ n ih =>
    intro a b
    simp only [memcmpBytes]
    by_cases he : a.headD 0 = b.headD 0
    · rw [if_pos he, if_pos he.symm]
      exact ih _ _
    · rw [if_neg he, if_neg (fun hh => he hh.symm)]
      omega

theorem memcmpBytes_le_trans (n : Nat) : ∀ a b c : List Nat,
    memcmpBytes a b n ≤ 0 → memcmpBytes b c n ≤ 0 → memcmpBytes a c n ≤ 0 := by
  induction n with
  | zero => intro a b c _ _; exact le_refl 0
  | succ n ih =>
    intro a b c h1 h2
    simp only [memcmpBytes] at h1 h2 ⊢
    by_cases he1 : a.headD 0 = b.headD 0 <;> by_cases he2 : b.headD 0 = c.headD 0
    · rw [if_pos he1] at h1
      rw [if_pos he2] at h2
      rw [if_pos (he1.trans he2)]
      exact ih _ _ _ h1 h2
    · rw [if_pos he1] at h1
      rw [if_neg he2] at h2
      rw [if_neg (by omega : ¬ a.headD 0 = c.headD 0)]
      omega
    · rw [if_neg he1] at h1
      rw [if_pos he2] at h2
      rw [if_neg (by omega : ¬ a.headD 0 = c.headD 0)]
      omega
    · rw [if_neg he1] at h1
      rw [if_neg he2] at h2
      by_cases he3 : a.headD 0 = c.headD 0
      · exfalso
        omega
      · rw [if_neg he3]
        omega

/-- The `int cmp = bson->len - other->len` computation: a `uint32`
subtraction converted to `int` equals the mathematical difference when
both lengths are below `2^31` (invariant 4: document sizes stay below
`INT32_MAX`). -/
theorem toInt32_usub (x y : Nat) (hx : x < 2147483648) (hy : y < 2147483648) :
    toInt32 ((x + 4294967296 - y) % 4294967296) = (x : Int) - y := by
  unfold toInt32
  split <;> omega

/-- Evaluation of `bson_compare` under the size invariant: length difference first,
`memcmp` over `bson->len` bytes on equal lengths. -/
theorem bson_compare_eq (a b : BRoot)
    (ha : a.len < 2147483648) (hb : b.len < 2147483648) :
    bson_compare a b = if a.len = b.len then memcmpBytes a.data b.data a.len
      else (a.len : Int) - b.len := by
  unfold bson_compare
  rw [Nat.mod_eq_of_lt (by omega : a.len < 4294967296),
    Nat.mod_eq_of_lt (by omega : b.len < 4294967296), toInt32_usub a.len b.len ha hb]
  by_cases h : a.len = b.len
  · have hz : ((a.len : Int) - b.len) = 0 := by omega
    rw [hz]
    simp [h]
  · have hz : ((a.len : Int) - b.len) ≠ 0 := by omega
    simp [hz, h]

/-- C8: under the document size invariant (`len < INT32_MAX`),
`bson_compare` returns `a.len - b.len` when the lengths differ and the
byte-wise `memcmp` result over `a.len` bytes otherwise; `bson_equal` holds
exactly when `bson_compare` is zero; `bson_equal` is reflexive, symmetric
and transitive, and `bson_compare` is total and transitive (a total
preorder). -/
theorem c8_compare_equal_laws (a b c : BRoot)
    (ha : a.len < 2147483648) (hb : b.len < 2147483648) (hc : c.len < 2147483648) :
    (a.len ≠ b.len → bson_compare a b = (a.len : Int) - b.len)
    ∧ (a.len = b.len → bson_compare a b = memcmpBytes a.data b.data a.len)
    ∧ (bson_equal a b = true ↔ bson_compare a b = 0)
    ∧ bson_equal a a = true
    ∧ (bson_equal a b = true → bson_equal b a = true)
    ∧ (bson_equal a b = true → bson_equal b c = true → bson_equal a c = true)
    ∧ (bson_compare a b ≤ 0 ∨ bson_compare b a ≤ 0)
    ∧ (bson_compare a b ≤ 0 → bson_compare b c ≤ 0 → bson_compare a c ≤ 0) := by
  have hab := bson_compare_eq a b ha hb
  have hba := bson_compare_eq b a hb ha
  have hac := bson_compare_eq a c ha hc
  have hbc := bson_compare_eq b c hb hc
  have haa := bson_compare_eq a a ha ha
  have heq : ∀ x y : BRoot, bson_equal x y = true ↔ bson_compare x y = 0 := by
    intro x y
    simp [bson_equal]
  refine ⟨?_, ?_, heq a b, ?_, ?_, ?_, ?_, ?_⟩
  · intro h
    rw [hab, if_neg h]
  · intro h
    rw [hab, if_pos h]
  · rw [heq a a, haa, if_pos rfl]
    exact memcmpBytes_self a.len a.data
  · rw [heq a b, heq b a, hab, hba]
    intro h
    by_cases hl : a.len = b.len
    · rw [if_pos hl] at h
      rw [if_pos hl.symm]
      have h2 := memcmpBytes_zero_symm a.len a.data b.data h
      rw [hl] at h2
      exact h2
    · rw [if_neg hl] at h
      exfalso
      omega
  · rw [heq a b, heq b c, heq a c, hab, hbc, hac]
    intro h1 h2
    by_cases hl1 : a.len = b.len <;> by_cases hl2 : b.len = c.len
    · rw [if_pos hl1] at h1
      rw [if_pos hl2] at h2
      rw [if_pos (hl1.trans hl2)]
      have h2a : memcmpBytes b.data c.data a.len = 0 := by
        rw [hl1]
        exact h2
      exact memcmpBytes_zero_trans a.len a.data b.data c.data h1 h2a
    · rw [if_neg hl2] at h2
      exfalso
      omega
    · rw [if_neg hl1] at h1
      exfalso
      omega
    · rw [if_neg hl1] at h1
      exfalso
      omega
  · rw [hab, hba]
    by_cases hl : a.len = b.len
    · rw [if_pos hl, if_pos hl.symm]
      rcases memcmpBytes_le_total a.len a.data b.data with h | h
      · exact Or.inl h
      · refine Or.inr ?_
        rw [← hl]
        exact h
    · rw [if_neg hl, if_neg (fun hh => hl hh.symm)]
      omega
  · rw [hab, hbc, hac]
    intro h1 h2
    by_cases hl1 : a.len = b.len <;> by_cases hl2 : b.len = c.len
    · rw [if_pos hl1] at h1
      rw [if_pos hl2] at h2
      rw [if_pos (hl1.trans hl2)]
      have h2a : memcmpBytes b.data c.data a.len ≤ 0 := by
        rw [hl1]
        exact h2
      exact memcmpBytes_le_trans a.len a.data b.data c.data h1 h2a
    · rw [if_pos hl1] at h1
      rw [if_neg hl2] at h2
      rw [if_neg (by omega : ¬ a.len = c.len)]
      omega
    · rw [if_neg hl1] at h1
      rw [if_pos hl2] at h2
      rw [if_neg (by omega : ¬ a.len = c.len)]
      omega
    · rw [if_neg hl1] at h1
      rw [if_neg hl2] at h2
      by_cases hl3 : a.len = c.len
      · exfalso
        omega
      · rw [if_neg hl3]
        omega

/-- C8, witness: the empty document, the `{"a": 1}` document, and the
empty document again. -/
theorem c8_compare_equal_laws_witness :
    bson_equal bson_new bson_new = true
    ∧ (bson_new.len
          ≠ ({ data := [12, 0, 0, 0, 16, 97, 0, 1, 0, 0, 0, 0], len := 12, noGrow := false }
            : BRoot).len →
        bson_compare bson_new
          { data := [12, 0, 0, 0, 16, 97, 0, 1, 0, 0, 0, 0], len := 12, noGrow := false }
          = (5 : Int) - 12) := by
  have h := c8_compare_equal_laws bson_new
    { data := [12, 0, 0, 0, 16, 97, 0, 1, 0, 0, 0, 0], len := 12, noGrow := false }
    bson_new (by decide) (by decide) (by decide)
  exact ⟨h.2.2.2.1, h.1⟩

/-! ## C10 — sized construction -/

/-- The doubling loop starting from a power of two at most `2^30` stays at
most `2^30` as long as the requested minimum is at most `2^30` (it stops
at the first power of two that suffices). -/
theorem growSize_le_pow30 : ∀ fuel k amin, amin ≤ 1073741824
    → 2 ^ (6 + k) ≤ 1073741824 → growSize fuel (2 ^ (6 + k)) amin ≤ 1073741824 := by
  intro fuel
  induction fuel with
  | zero =>
    intro k amin _ hk
    simpa [growSize] using hk
  | succ fuel ih =>
    intro k amin ha hk
    unfold growSize
    by_cases h : 2 ^ (6 + k) < amin
    · rw [if_pos h]
      have hlt : 2 ^ (6 + k) < 2 ^ 30 :=
        lt_of_lt_of_le h (le_of_le_of_eq ha (by norm_num))
      have hexp : 6 + k < 30 := (Nat.pow_lt_pow_iff_right (by norm_num)).1 hlt
      have hk2 : 2 ^ (6 + (k + 1)) ≤ 1073741824 := by
        calc 2 ^ (6 + (k + 1)) ≤ 2 ^ 30 := Nat.pow_le_pow_right (by norm_num) (by omega)
          _ = 1073741824 := by norm_num
      have e : 2 ^ (6 + k) * 2 = 2 ^ (6 + (k + 1)) := by
        rw [← Nat.pow_succ]
        rfl
      rw [e]
      exact ih (k + 1) amin ha hk2
    · rw [if_neg h]
      exact hk

/-- C10 (amended): for every size in `[5, 2^30]`, `bson_sized_new(size)`
returns a handle for an empty document — length 5, first five bytes
`05 00 00 00 00`, identical in content to `bson_new()`; the size argument
only pre-allocates capacity.  (For sizes in `(2^30, INT_MAX)` the
power-of-two growth loop reaches `INT_MAX` and the process aborts instead
of returning a handle; see the counterexample.) -/
theorem c10_sized_new_is_empty (size : Nat) (h5 : 5 ≤ size) (hb : size ≤ 1073741824) :
    ∃ b, bson_sized_new size = SizedNewResult.ok b
      ∧ b.len = 5
      ∧ b.len = bson_new_top.len
      ∧ (∀ i, i < 5 → byteAt b.data i = byteAt bson_new_top.data i)
      ∧ byteAt b.data 0 = 5 ∧ byteAt b.data 1 = 0 ∧ byteAt b.data 2 = 0
      ∧ byteAt b.data 3 = 0 ∧ byteAt b.data 4 = 0 := by
  unfold bson_sized_new
  rw [if_neg (by omega), if_neg (by unfold INT_MAX; omega)]
  unfold bson_grow_if_needed bson_new_top
  simp only
  have hamin : 5 + (size - 5) = size := by omega
  rw [hamin]
  by_cases hin : size ≤ inlbufSize ∨ size < 0
  · rw [if_pos hin]
    exact ⟨{ data := [5, 0, 0, 0, 0], len := 5, allocated := 0 }, rfl, rfl, rfl,
      fun i _ => rfl, rfl, rfl, rfl, rfl, rfl⟩
  · rw [if_neg hin]
    have hgs : growSize 64 64 size ≤ 1073741824 := by
      have h := growSize_le_pow30 64 0 size hb (by norm_num)
      simpa using h
    rw [if_neg (by unfold INT_MAX; omega), if_neg (by omega)]
    refine ⟨_, rfl, rfl, rfl, ?_, ?_, ?_, ?_, ?_, ?_⟩
    · intro i hi
      show byteAt (padTo [5, 0, 0, 0, 0] (growSize 64 64 size)) i
        = byteAt [5, 0, 0, 0, 0] i
      rw [byteAt_padTo]
    all_goals
      show byteAt (padTo [5, 0, 0, 0, 0] (growSize 64 64 size)) _ = _
    all_goals rw [byteAt_padTo]
    all_goals rfl

/-- C10, counterexample: `2^30 + 1` lies in the claimed range
`[5, INT_MAX)`, but `bson_sized_new(2^30 + 1)` does not return a handle:
the doubling loop reaches `2^31 ≥ INT_MAX` and the process aborts in
`bson_grow_if_needed`. -/
theorem c10_sized_new_aborts :
    5 ≤ 1073741825 ∧ 1073741825 < INT_MAX
    ∧ bson_sized_new 1073741825 = SizedNewResult.aborted := by
  refine ⟨by decide, by decide, by decide⟩

/-- C10, witness: size 200. -/
theorem c10_sized_new_is_empty_witness :
    ∃ b, bson_sized_new 200 = SizedNewResult.ok b
      ∧ b.len = 5
      ∧ b.len = bson_new_top.len
      ∧ (∀ i, i < 5 → byteAt b.data i = byteAt bson_new_top.data i)
      ∧ byteAt b.data 0 = 5 ∧ byteAt b.data 1 = 0 ∧ byteAt b.data 2 = 0
      ∧ byteAt b.data 3 = 0 ∧ byteAt b.data 4 = 0 :=
  c10_sized_new_is_empty 200 (by decide) (by decide)

/-! ## C3 — the validator -/

/-- With no flags set, the validator traversal records nothing on a
(structurally) well-formed element range: the policy hooks are disabled
and no corruption is ever encountered. -/
theorem valLoop_clean : ∀ fuel doc p e, wfE fuel doc p = true
    → valLoop noFlags fuel doc p e = e := by
  intro fuel
  induction fuel with
  | zero =>
    intro doc p e h
    simp [wfE] at h
  | succ fuel ih =>
    intro doc p e h
    rw [wfE] at h
    rw [valLoop]
    by_cases hp : p = doc.length - 1
    · rw [if_pos hp] at h ⊢
    · rw [if_neg hp] at h ⊢
      rcases hep : elemParse doc p with _ | ⟨v, sz⟩
      · rw [hep] at h
        simp at h
      · rw [hep] at h
        dsimp only at h ⊢
        simp only [show noFlags.dollarKeys = false from rfl,
          show noFlags.dotKeys = false from rfl, show noFlags.utf8 = false from rfl,
          Bool.false_and, Bool.false_eq_true, if_false]
        by_cases h2 : byteAt doc p = 2
        · have h34 : ¬ (byteAt doc p = 3 ∨ byteAt doc p = 4) := by
            simp [h2]
          simp only [if_neg h34] at h
          simp only [if_pos h2]
          exact ih doc (p + sz) e h
        · by_cases h34 : byteAt doc p = 3 ∨ byteAt doc p = 4
          · simp only [if_pos h34] at h
            simp only [if_neg h2, if_pos h34]
            simp only [Bool.and_eq_true] at h
            obtain ⟨⟨hinit, hchild⟩, hcont⟩ := h
            rw [hinit]
            simp only [Bool.not_true, Bool.false_eq_true, if_false]
            rw [ih (childSlice doc v) 4 e hchild]
            exact ih doc (p + sz) e hcont
          · simp only [if_neg h34] at h
            simp only [if_neg h2, if_neg h34]
            exact ih doc (p + sz) e h

/-- C3 (amended): `bson_validate` returns true exactly when the traversal
recorded no violation offset — in particular, for any well-formed
document D, `validate(D, 0)` returns true with no offset.  When it
returns false, the reported offset is the one recorded by the last
violation callback to fire; for a violation found inside an embedded
document it is relative to that embedded document, so it is not in
general the byte offset of the first violation within the whole document
(see the counterexample). -/
theorem c3_validate_ok (doc : List Nat) (fl : VFlags) :
    ((bson_validate doc fl).1 = true ↔ (bson_validate doc fl).2 = none)
    ∧ (wellFormedDoc doc = true → bson_validate doc noFlags = (true, none)) := by
  constructor
  · unfold bson_validate
    by_cases hi : bson_iter_init_ok doc
    · rw [hi]
      simp only [Bool.not_true, Bool.false_eq_true, if_false]
      cases hv : valLoop fl doc.length doc 4 none <;> simp
    · rw [Bool.not_eq_true] at hi
      rw [hi]
      simp
  · intro h
    unfold wellFormedDoc at h
    simp only [Bool.and_eq_true] at h
    obtain ⟨hinit, hwf⟩ := h
    unfold bson_validate
    rw [hinit]
    simp only [Bool.not_true, Bool.false_eq_true, if_false]
    rw [valLoop_clean doc.length doc 4 none hwf]

/-- C3, witness: the 12-byte document `{"a": 1}` is well-formed and
validates with flags 0. -/
theorem c3_validate_ok_witness :
    bson_validate [12, 0, 0, 0, 16, 97, 0, 1, 0, 0, 0, 0] noFlags = (true, none) :=
  (c3_validate_ok [12, 0, 0, 0, 16, 97, 0, 1, 0, 0, 0, 0] noFlags).2 (by decide)

/-- C3, counterexample: the document `{"a": {"$x": 1}}` under
`DOLLAR_KEYS`.  Its only violation is the element with key `"$x"`, which
begins at byte 11 of the document (`dollarOffsets` enumerates the
dollar-key elements), yet `bson_validate` reports offset 4 — the
violation's offset inside the embedded document — so the reported offset
is not the byte offset of the first violation. -/
theorem c3_validate_offset_cex :
    bson_validate [21, 0, 0, 0, 3, 97, 0, 13, 0, 0, 0, 16, 36, 120, 0, 1, 0, 0, 0, 0, 0]
        { utf8 := false, utf8AllowNull := false, dollarKeys := true, dotKeys := false }
      = (false, some 4)
    ∧ dollarOffsets 21 [21, 0, 0, 0, 3, 97, 0, 13, 0, 0, 0, 16, 36, 120, 0, 1, 0, 0, 0, 0, 0] 4
      = [11]
    ∧ ¬ (4 ∈ [(11 : Nat)]) := by
  refine ⟨by decide, by decide, by decide⟩
